import Mathlib

/-!
Shallow embedding of the codecrafters-git C++ client.

This file embeds the parts of `src/main.cpp` that the specification's claims
talk about: the delta decoder (`applyDelta`), the tree writer (`writeTree`),
the loose-object store (`writeObject` / `writeObjectWithSha`), the
`hash-object` / `cat-file` / `write-tree` command pipelines, the packet-line
parser (`parsePktLines`), and the pack parser with its delta-resolution
fixpoint (`parsePackfile`).

Conventions:
* A C++ `char` / byte is a `Nat` in `0..255`; a `std::string` buffer is a
  `List Nat` of its bytes.
* Loops are written as structurally recursive functions over an explicit
  `fuel` counter so that every definition is executable and kernel-reducible.
  Each loop's cursor strictly increases, so `buffer.length + 1` fuel always
  reaches the loop's own exit condition; the fuel-0 fallback is unreachable
  for those fuel values.
* Fallible code (C++ exceptions) returns `Option`: `none` models a thrown
  exception propagating out of the translated function.
* External libraries (zlib, OpenSSL SHA-1, libcurl) are not part of the
  repository's sources. zlib is modelled as an abstract deflate/inflate pair
  with a round-trip law; SHA-1 is modelled from RFC 3174, which is the
  function OpenSSL's `SHA1` computes.
-/

set_option maxRecDepth 100000

namespace GitSpec

/-- Decimal ASCII digits of `n`, most significant first; models
`std::to_string` on an unsigned value. -/
def decDigitsAux : Nat → Nat → List Nat
  | 0, _ => []
  | fuel + 1, n => if n < 10 then [48 + n] else decDigitsAux fuel (n / 10) ++ [48 + n % 10]

/-- The bytes of `std::to_string (n)`. -/
def decBytes (n : Nat) : List Nat := decDigitsAux (n + 1) n

/-- Model of `std::string::substr (pos, count)`: throws `std::out_of_range` when
`pos > size()` (modelled as `none`); otherwise yields at most `count` bytes
starting at `pos`. -/
def substrQ (s : List Nat) (pos count : Nat) : Option (List Nat) :=
  if pos > s.length then none else some ((s.drop pos).take count)

/-! ## The delta decoder: `applyDelta`, src/main.cpp lines 354-401 -/

/-- One size-prefix varint of `applyDelta` (src/main.cpp:358-373): each byte
contributes its low 7 bits at shifts 0, 7, 14, …; a clear high bit stops the
loop. Returns `(value, cursor after the varint)`. If the buffer ends
mid-varint the incomplete accumulator is returned, as in the C++ loop. -/
def parseSizeF (d : List Nat) : Nat → Nat → Nat → Nat → Nat × Nat
  | 0, pos, acc, _ => (acc, pos)
  | fuel + 1, pos, acc, shift =>
    if pos < d.length then
      let b := d.getD pos 0
      let acc' := acc ||| ((b &&& 0x7f) <<< shift)
      if b &&& 0x80 = 0 then (acc', pos + 1)
      else parseSizeF d fuel (pos + 1) acc' (shift + 7)
    else (acc, pos)

/-- One when the gate bit `mask` of `cmd` is set, else zero. -/
def gateN (cmd mask : Nat) : Nat := if cmd &&& mask ≠ 0 then 1 else 0

/-- The conditional operand-byte read `if (cmd & mask) … delta[pos++]` of the
copy branch; an absent gate leaves the operand byte `0`. Reads at the end of
the buffer yield `0`, as `std::string::operator[]` does at `size()`. -/
def gatedByte (d : List Nat) (p cmd mask : Nat) : Nat :=
  if cmd &&& mask ≠ 0 then d.getD p 0 else 0

/-- Operand decoding of a copy instruction (src/main.cpp:383-391): up to 4
offset bytes (gates `0x01,0x02,0x04,0x08`) and up to 3 size bytes (gates
`0x10,0x20,0x40`), LSB-first; a decoded size of `0` means `0x10000`.
Returns `(copyOff, copySize, cursor after the operands)`. -/
def copyParams (d : List Nat) (pos cmd : Nat) : Nat × Nat × Nat :=
  let p1 := pos + gateN cmd 0x01
  let p2 := p1 + gateN cmd 0x02
  let p3 := p2 + gateN cmd 0x04
  let p4 := p3 + gateN cmd 0x08
  let p5 := p4 + gateN cmd 0x10
  let p6 := p5 + gateN cmd 0x20
  let o0 := gatedByte d pos cmd 0x01
  let o1 := gatedByte d p1 cmd 0x02
  let o2 := gatedByte d p2 cmd 0x04
  let o3 := gatedByte d p3 cmd 0x08
  let s0 := gatedByte d p4 cmd 0x10
  let s1 := gatedByte d p5 cmd 0x20
  let s2 := gatedByte d p6 cmd 0x40
  let copyOff := o0 ||| (o1 <<< 8) ||| (o2 <<< 16) ||| (o3 <<< 24)
  let sz := s0 ||| (s1 <<< 8) ||| (s2 <<< 16)
  (copyOff, if sz = 0 then 0x10000 else sz, p6 + gateN cmd 0x40)

/-- The instruction loop of `applyDelta` (src/main.cpp:378-399).
A set high bit of `cmd` is a copy (`result.append(base.substr(copyOff,
copySize))`, whose possible `std::out_of_range` throw is `none`); `cmd > 0`
is an insert of the next `cmd` delta bytes; `cmd == 0` falls through both
branches and is skipped. -/
def deltaLoopF (base d : List Nat) : Nat → Nat → List Nat → Option (List Nat)
  | 0, _, acc => some acc
  | fuel + 1, pos, acc =>
    if pos < d.length then
      let cmd := d.getD pos 0
      if cmd &&& 0x80 ≠ 0 then
        match substrQ base (copyParams d (pos + 1) cmd).1 (copyParams d (pos + 1) cmd).2.1 with
        | none => none
        | some piece => deltaLoopF base d fuel (copyParams d (pos + 1) cmd).2.2 (acc ++ piece)
      else if cmd > 0 then
        deltaLoopF base d fuel (pos + 1 + cmd) (acc ++ (d.drop (pos + 1)).take cmd)
      else
        deltaLoopF base d fuel (pos + 1) acc
    else some acc

/-- Model of `applyDelta (base, delta)` (src/main.cpp:354-401): skip the two declared
sizes (their values are only used for `result.reserve`), then run the
instruction loop. `none` models a propagated exception. -/
def applyDelta (base delta : List Nat) : Option (List Nat) :=
  let p1 := (parseSizeF delta (delta.length + 1) 0 0 0).2
  let p2 := (parseSizeF delta (delta.length + 1) p1 0 0).2
  deltaLoopF base delta (delta.length + 1) p2 []

/-- The declared source size at the head of a delta payload. -/
def declaredSrcSize (delta : List Nat) : Nat :=
  (parseSizeF delta (delta.length + 1) 0 0 0).1

/-- The declared target size, the second varint of a delta payload. -/
def declaredTgtSize (delta : List Nat) : Nat :=
  (parseSizeF delta (delta.length + 1)
    (parseSizeF delta (delta.length + 1) 0 0 0).2 0 0).1

/-- The bytes of `"Hello World"`. -/
def helloWorldBytes : List Nat := [72, 101, 108, 108, 111, 32, 87, 111, 114, 108, 100]

/-- The E4 delta: declared sizes 11 and 15, then: copy 5 bytes at offset 0
(`0x90`, size byte 5), insert `" Git"` (`0x04`), copy 6 bytes at offset 5
(`0x91`, offset byte 5, size byte 6). -/
def e4Delta : List Nat := [11, 15, 0x90, 5, 0x04, 32, 71, 105, 116, 0x91, 5, 6]

/-- The bytes of `"Hello Git World"`. -/
def helloGitWorldBytes : List Nat :=
  [72, 101, 108, 108, 111, 32, 71, 105, 116, 32, 87, 111, 114, 108, 100]

/-! ## SHA-1 (RFC 3174), the function `computeSha1` obtains from OpenSSL

`computeSha1` (src/main.cpp:88-99) feeds the whole buffer to OpenSSL's
`SHA1` and hex-encodes the 20-byte digest with lowercase digits. OpenSSL is
an external library; the model below is SHA-1 as defined by RFC 3174. -/

/-- Left-rotate a 32-bit word by `n`. -/
def rotl32 (n x : Nat) : Nat := ((x <<< n) ||| (x >>> (32 - n))) % 2 ^ 32

/-- Big-endian 4-byte encoding of a 32-bit word. -/
def be32 (n : Nat) : List Nat := [(n >>> 24) % 256, (n >>> 16) % 256, (n >>> 8) % 256, n % 256]

/-- Big-endian 8-byte encoding of a 64-bit value. -/
def be64 (n : Nat) : List Nat :=
  [(n >>> 56) % 256, (n >>> 48) % 256, (n >>> 40) % 256, (n >>> 32) % 256,
   (n >>> 24) % 256, (n >>> 16) % 256, (n >>> 8) % 256, n % 256]

/-- SHA-1 padding: `0x80`, zeros to 56 mod 64, then the bit length. -/
def sha1Pad (msg : List Nat) : List Nat :=
  msg ++ [0x80] ++ List.replicate ((119 - msg.length % 64) % 64) 0 ++ be64 (msg.length * 8)

/-- Big-endian 32-bit words of a byte list. -/
def chunkWords : List Nat → List Nat
  | a :: b :: c :: d :: rest => (((a * 256 + b) * 256 + c) * 256 + d) :: chunkWords rest
  | _ => []

/-- One step of the SHA-1 message-schedule extension. -/
def extendStep (w : List Nat) : List Nat :=
  let n := w.length
  w ++ [rotl32 1 ((w.getD (n - 3) 0) ^^^ (w.getD (n - 8) 0) ^^^
                  (w.getD (n - 14) 0) ^^^ (w.getD (n - 16) 0))]

/-- Iterate the schedule extension. -/
def extendW : Nat → List Nat → List Nat
  | 0, w => w
  | f + 1, w => extendW f (extendStep w)

/-- The SHA-1 round function for round `t`. -/
def sha1F (t b c d : Nat) : Nat :=
  if t < 20 then (b &&& c) ||| ((0xffffffff ^^^ b) &&& d)
  else if t < 40 then b ^^^ c ^^^ d
  else if t < 60 then (b &&& c) ||| (b &&& d) ||| (c &&& d)
  else b ^^^ c ^^^ d

/-- The SHA-1 round constant for round `t`. -/
def sha1K (t : Nat) : Nat :=
  if t < 20 then 0x5A827999
  else if t < 40 then 0x6ED9EBA1
  else if t < 60 then 0x8F1BBCDC
  else 0xCA62C1D6

/-- The 80 compression rounds over one block's schedule `w`. -/
def sha1RoundsAux (w : List Nat) :
    Nat → Nat → Nat × Nat × Nat × Nat × Nat → Nat × Nat × Nat × Nat × Nat
  | 0, _, st => st
  | f + 1, t, (a, b, c, d, e) =>
    sha1RoundsAux w f (t + 1)
      ((rotl32 5 a + sha1F t b c d + e + sha1K t + w.getD t 0) % 2 ^ 32,
       a, rotl32 30 b, c, d)

/-- Process one 64-byte block. -/
def sha1Chunk (h : Nat × Nat × Nat × Nat × Nat) (chunk : List Nat) :
    Nat × Nat × Nat × Nat × Nat :=
  let w := extendW 64 (chunkWords chunk)
  let (h0, h1, h2, h3, h4) := h
  let (a, b, c, d, e) := sha1RoundsAux w 80 0 h
  ((h0 + a) % 2 ^ 32, (h1 + b) % 2 ^ 32, (h2 + c) % 2 ^ 32,
   (h3 + d) % 2 ^ 32, (h4 + e) % 2 ^ 32)

/-- Fold `sha1Chunk` over the padded message, 64 bytes at a time. -/
def sha1BlocksF : Nat → Nat × Nat × Nat × Nat × Nat → List Nat → Nat × Nat × Nat × Nat × Nat
  | 0, h, _ => h
  | f + 1, h, msg =>
    if msg.isEmpty then h
    else sha1BlocksF f (sha1Chunk h (msg.take 64)) (msg.drop 64)

/-- Serialize the five 32-bit state words big-endian. -/
def sha1Digest (h : Nat × Nat × Nat × Nat × Nat) : List Nat :=
  be32 h.1 ++ be32 h.2.1 ++ be32 h.2.2.1 ++ be32 h.2.2.2.1 ++ be32 h.2.2.2.2

/-- The 20-byte SHA-1 digest of a byte list. -/
def sha1Bytes (msg : List Nat) : List Nat :=
  sha1Digest (sha1BlocksF ((sha1Pad msg).length / 64 + 1)
    (0x67452301, 0xEFCDAB89, 0x98BADCFE, 0x10325476, 0xC3D2E1F0) (sha1Pad msg))

/-- One lowercase hex digit. -/
def hexDigit (n : Nat) : Nat := if n < 10 then 48 + n else 87 + n

/-- Lowercase hex encoding of a byte list, as ASCII bytes. -/
def toHexBytes (l : List Nat) : List Nat :=
  l.foldr (fun b acc => hexDigit (b / 16) :: hexDigit (b % 16) :: acc) []

/-- Model of `computeSha1` (src/main.cpp:88-99): the 40-char lowercase hex SHA-1 of
the buffer, as ASCII bytes. -/
def computeSha1 (data : List Nat) : List Nat := toHexBytes (sha1Bytes data)

/-- ASCII bytes of a string literal (used only to write byte-list constants
readably). -/
def strBytes (s : String) : List Nat := s.toList.map Char.toNat

/-- Object framing `"<kind> <size>\0" ++ payload` (glossary; used at
src/main.cpp:149, 216, 467, 495, 755, 832). -/
def frameObj (kind payload : List Nat) : List Nat :=
  kind ++ [32] ++ decBytes payload.length ++ [0] ++ payload

/-- The bytes of `"blob"`. -/
def blobKind : List Nat := [98, 108, 111, 98]

/-- The bytes of `"tree"`. -/
def treeKind : List Nat := [116, 114, 101, 101]

/-- The bytes of `"commit"`. -/
def commitKind : List Nat := [99, 111, 109, 109, 105, 116]

/-! ## Byte-wise comparison and tree entries

`writeTree` (src/main.cpp:154-219) sorts its entries with
`a.name < b.name` on `std::string`, which compares byte-wise as
`unsigned char` (`std::char_traits<char>::lt`). -/

/-- Model of `std::string` comparison: strict lexicographic order on unsigned bytes. -/
def bytesLt : List Nat → List Nat → Bool
  | _, [] => false
  | [], _ :: _ => true
  | a :: as, b :: bs => if a < b then true else if b < a then false else bytesLt as bs

/-- One entry of a serialized tree: mode, name, raw 20-byte digest. -/
structure TreeEntry where
  mode : List Nat
  name : List Nat
  sha : List Nat
deriving DecidableEq

/-- Sorted insertion with the `a.name < b.name` comparator. -/
def insertEntry (e : TreeEntry) : List TreeEntry → List TreeEntry
  | [] => [e]
  | x :: xs => if bytesLt e.name x.name then e :: x :: xs else x :: insertEntry e xs

/-- Model of `std::sort` with the `a.name < b.name` comparator (src/main.cpp:204-206):
on entries with pairwise distinct names every correct sort produces the same,
uniquely determined, ordered permutation, here computed by insertion sort. -/
def sortEntries : List TreeEntry → List TreeEntry
  | [] => []
  | x :: xs => insertEntry x (sortEntries xs)

/-- The bytes of `".git"`. -/
def dotGitBytes : List Nat := [46, 103, 105, 116]

/-- Directory mode `"40000"`. -/
def dirModeBytes : List Nat := [52, 48, 48, 48, 48]

/-- Regular-file mode `"100644"`. -/
def fileModeBytes : List Nat := [49, 48, 48, 54, 52, 52]

/-- One serialized entry, `<mode> SP <name> NUL <raw-sha>` (src/main.cpp:212). -/
def serializeEntry (e : TreeEntry) : List Nat := e.mode ++ [32] ++ e.name ++ [0] ++ e.sha

/-- Concatenation of serialized entries, the tree payload. -/
def serializeEntries (l : List TreeEntry) : List Nat :=
  l.foldr (fun e acc => serializeEntry e ++ acc) []

/-- A filesystem node as seen by `std::filesystem::directory_iterator`:
a regular file with its content, a directory with its children in iteration
order (names paired with nodes), or anything else (skipped). -/
inductive FsNode where
  | file (content : List Nat)
  | dir (children : List (List Nat × FsNode))
  | other

/-! ## The loose-object store -/

/-- Abstract model of zlib (an external library): a deflate/inflate pair that
round-trips. `compressZlib`/`decompressZlib` in the source are thin wrappers
over it. -/
structure ZlibModel where
  deflate : List Nat → List Nat
  inflate : List Nat → List Nat
  round : ∀ x, inflate (deflate x) = x

/-- A degenerate but lawful instance, used for concrete witnesses. -/
def idZlib : ZlibModel := ⟨id, id, fun _ => rfl⟩

/-- The loose-object directory, keyed by the 40-hex digest. Both writers and
both readers derive the path `objects/<xx>/<rest>` from the digest by the
same injective split, so the digest itself serves as the key. Each entry is
`(hex digest, file bytes)`. -/
abbrev FS : Type := List (List Nat × List Nat)

/-- Read the file at a path (first binding wins, as for a real directory). -/
def lookupFS (fs : FS) (k : List Nat) : Option (List Nat) :=
  match fs with
  | [] => none
  | (k', v) :: rest => if k' = k then some v else lookupFS rest k

/-- Create or truncate-and-rewrite the file at a path. -/
def setFS (fs : FS) (k v : List Nat) : FS :=
  match fs with
  | [] => [(k, v)]
  | (k', v') :: rest => if k' = k then (k, v) :: rest else (k', v') :: setFS rest k v

/-- Model of `writeObject` (src/main.cpp:102-120): hash, deflate, create the
directory, open the target with default (truncating) flags and write.
`openOk` models whether `std::ofstream` opened successfully; a failed open
is silently ignored and the digest is returned regardless. There is no
existence check: an existing file is opened for truncation and rewritten. -/
def writeObject (zl : ZlibModel) (openOk : Bool) (fs : FS) (objectData : List Nat) :
    List Nat × FS :=
  let sha := computeSha1 objectData
  (sha, if openOk then setFS fs sha (zl.deflate objectData) else fs)

/-- Model of `writeObjectWithSha` (src/main.cpp:123-139): returns immediately when the
target path already exists; otherwise deflates and writes like `writeObject`. -/
def writeObjectWithSha (zl : ZlibModel) (openOk : Bool) (fs : FS)
    (objectData sha : List Nat) : FS :=
  if (lookupFS fs sha).isSome then fs
  else if openOk then setFS fs sha (zl.deflate objectData) else fs

/-! ## `writeTree` (src/main.cpp:154-219)

The directory scan skips `.git` and non-file/non-directory children, writes
a blob (via `writeBlob`, src/main.cpp:142-151) for each regular file and
recurses for each directory, converts each returned hex digest back to its
20 raw bytes (so an entry's `sha` is exactly the raw SHA-1 of the child's
framed object), sorts, serializes, and writes the tree object. -/

/-- One child of the `writeTree` scan loop (src/main.cpp:165-201): skip
`.git` and non-file/non-directory children; a regular file becomes a
`100644` entry whose raw digest is the SHA-1 of the blob framing written by
`writeBlob`; a directory becomes a `40000` entry whose raw digest comes from
the recursive call `rec` (the hex digest returned by `writeTree` converted
back to raw bytes equals the raw SHA-1 of the subtree's framed object). -/
def treeStep (zl : ZlibModel) (openOk : Bool)
    (rec : FS → List (List Nat × FsNode) → List Nat × FS)
    (acc : List TreeEntry × FS) (c : List Nat × FsNode) : List TreeEntry × FS :=
  if c.1 = dotGitBytes then acc
  else
    match c.2 with
    | FsNode.file content =>
      let blobData := frameObj blobKind content
      let (_, fs') := writeObject zl openOk acc.2 blobData
      (acc.1 ++ [⟨fileModeBytes, c.1, sha1Bytes blobData⟩], fs')
    | FsNode.dir sub =>
      let (subPayload, fs') := rec acc.2 sub
      (acc.1 ++ [⟨dirModeBytes, c.1, sha1Bytes (frameObj treeKind subPayload)⟩], fs')
    | FsNode.other => acc

/-- One level of `writeTree` (src/main.cpp:154-219): returns `(tree payload,
store after all writes)`. `fuel` bounds the recursion depth (the directory
tree is finite; any `fuel` larger than its depth gives the real result). -/
def writeTreeRun (zl : ZlibModel) (openOk : Bool) :
    Nat → FS → List (List Nat × FsNode) → List Nat × FS
  | 0, fs, _ => ([], fs)
  | fuel + 1, fs, children =>
    let (entries, fs1) := children.foldl (treeStep zl openOk (writeTreeRun zl openOk fuel)) ([], fs)
    let payload := serializeEntries (sortEntries entries)
    let (_, fs2) := writeObject zl openOk fs1 (frameObj treeKind payload)
    (payload, fs2)

/-- The payload of the tree object `writeTree` produces for a directory with
the given children (payload does not depend on the store, the zlib instance
or open success). -/
def writeTreePayload (fuel : Nat) (children : List (List Nat × FsNode)) : List Nat :=
  (writeTreeRun idZlib true fuel [] children).1

/-- The store-free computation of the tree payload, used to reason about
`writeTreeRun` (the payload component ignores the threaded store). -/
def pureTreePayloadF : Nat → List (List Nat × FsNode) → List Nat
  | 0, _ => []
  | fuel + 1, children =>
    serializeEntries (sortEntries (children.filterMap fun c =>
      if c.1 = dotGitBytes then none
      else
        match c.2 with
        | FsNode.file content =>
          some ⟨fileModeBytes, c.1, sha1Bytes (frameObj blobKind content)⟩
        | FsNode.dir sub =>
          some ⟨dirModeBytes, c.1, sha1Bytes (frameObj treeKind (pureTreePayloadF fuel sub))⟩
        | FsNode.other => none))

/-- The entry that the scan produces for one child (at recursion budget
`fuel` for subdirectories). -/
def scanEntry (fuel : Nat) (c : List Nat × FsNode) : Option TreeEntry :=
  if c.1 = dotGitBytes then none
  else
    match c.2 with
    | FsNode.file content =>
      some ⟨fileModeBytes, c.1, sha1Bytes (frameObj blobKind content)⟩
    | FsNode.dir sub =>
      some ⟨dirModeBytes, c.1, sha1Bytes (frameObj treeKind (pureTreePayloadF fuel sub))⟩
    | FsNode.other => none

/-! ## Tree-payload entry parsing (`ls-tree`, src/main.cpp:922-963)

The `ls-tree` loop repeatedly takes the bytes up to the next SP as the mode,
the bytes up to the next NUL as the name, and skips 20 raw digest bytes.
Below the same loop is written on the remaining suffix: `find(' ', pos)`
from the cursor is `splitAtByte 32` of the suffix. -/

/-- Split at the first occurrence of byte `b`: `some (before, after)`, or
`none` when `b` does not occur (`std::string::find` returning `npos`). -/
def splitAtByte (b : Nat) : List Nat → Option (List Nat × List Nat)
  | [] => none
  | x :: xs =>
    if x = b then some ([], xs)
    else
      match splitAtByte b xs with
      | none => none
      | some (p, s) => some (x :: p, s)

/-- The tree-entry scan of `ls-tree`: `(mode, name)` pairs in payload order. -/
def parseTreeEntriesF : Nat → List Nat → List (List Nat × List Nat)
  | 0, _ => []
  | fuel + 1, l =>
    if l.isEmpty then []
    else
      match splitAtByte 32 l with
      | none => []
      | some (mode, rest) =>
        match splitAtByte 0 rest with
        | none => []
        | some (name, rest2) => (mode, name) :: parseTreeEntriesF fuel (rest2.drop 20)

/-- The `(mode, name)` pairs of a tree payload, in payload order. -/
def treeEntryPairs (payload : List Nat) : List (List Nat × List Nat) :=
  parseTreeEntriesF (payload.length + 1) payload

/-- Modelled from the spec: the comparison key claimed by the specification —
a directory entry compares as if its name had a trailing `/`. -/
def specEntryKey (p : List Nat × List Nat) : List Nat :=
  if p.1 = dirModeBytes then p.2 ++ [47] else p.2

/-! ## The `hash-object`, `cat-file`, `write-tree`, `commit-tree` commands -/

/-- The `hash-object -w <file>` body (src/main.cpp:732-789) on a file with
content `content`. Returns `(stdout bytes, exit code, store)`. An open
failure of the object file is diagnosed and exits non-zero. -/
def hashObjectCmd (zl : ZlibModel) (openOk : Bool) (fs : FS) (content : List Nat) :
    List Nat × Nat × FS :=
  let blobData := frameObj blobKind content
  let sha := computeSha1 blobData
  if openOk then (sha ++ [10], 0, setFS fs sha (zl.deflate blobData))
  else ([], 1, fs)

/-- The `cat-file -p <sha>` body (src/main.cpp:666-718): read the loose
file, inflate, split at the first NUL, print the content with no trailing
newline. `none` models the non-zero-exit error paths (file missing, no NUL). -/
def catFileCmd (zl : ZlibModel) (fs : FS) (sha : List Nat) : Option (List Nat) :=
  match lookupFS fs sha with
  | none => none
  | some comp =>
    match splitAtByte 0 (zl.inflate comp) with
    | none => none
    | some (_, content) => some content

/-- The `write-tree` body (src/main.cpp:719-731): run `writeTree` on the
current directory and print the digest. `writeObject`'s silently ignored
open failures never reach the `catch`, so the command prints the digest and
exits 0 regardless of `openOk`. -/
def writeTreeCmd (zl : ZlibModel) (openOk : Bool) (fuel : Nat) (fs : FS)
    (cwd : List (List Nat × FsNode)) : List Nat × Nat × FS :=
  let (payload, fs') := writeTreeRun zl openOk fuel fs cwd
  (computeSha1 (frameObj treeKind payload) ++ [10], 0, fs')

/-- The `commit-tree` body (src/main.cpp:790-844) after argument parsing,
with valid 40-hex arguments and a non-empty message: build the fixed-author
commit text, write it with `writeObject`, print the digest. As in
`write-tree`, a failed open inside `writeObject` is silently ignored. -/
def commitTreeCmd (zl : ZlibModel) (openOk : Bool) (fs : FS)
    (treeSha parentSha message : List Nat) : List Nat × Nat × FS :=
  let content :=
    strBytes "tree " ++ treeSha ++ [10] ++
    strBytes "parent " ++ parentSha ++ [10] ++
    strBytes "author John Doe <john@example.com> 1234567890 +0000" ++ [10] ++
    strBytes "committer John Doe <john@example.com> 1234567890 +0000" ++ [10] ++
    [10] ++ message ++ [10]
  let (sha, fs') := writeObject zl openOk fs (frameObj commitKind content)
  (sha ++ [10], 0, fs')

/-! ## Packet-line parsing (`parsePktLines`, src/main.cpp:287-303) -/

/-- The value of one hex digit, if any. -/
def hexVal (c : Nat) : Option Nat :=
  if 48 ≤ c ∧ c ≤ 57 then some (c - 48)
  else if 97 ≤ c ∧ c ≤ 102 then some (c - 87)
  else if 65 ≤ c ∧ c ≤ 70 then some (c - 55)
  else none

/-- Accumulate leading hex digits. -/
def stoiLoop : List Nat → Nat → Nat
  | [], acc => acc
  | c :: rest, acc =>
    match hexVal c with
    | none => acc
    | some v => stoiLoop rest (acc * 16 + v)

/-- Model of `std::stoi(s, nullptr, 16)` on the four length bytes: the value of the
maximal hex-digit prefix; `none` models the `std::invalid_argument` throw
when the first byte is not a hex digit. (Leading whitespace, signs and a
`0x` prefix, which `stoi` would also accept, never occur in the pack and
pkt-line inputs this parser receives.) -/
def stoi16 (l : List Nat) : Option Nat :=
  match l with
  | [] => none
  | c :: _ =>
    match hexVal c with
    | none => none
    | some _ => some (stoiLoop l 0)

/-- The `parsePktLines` loop: collects payloads (trailing `\n` stripped),
skips `0000` flush markers, and silently stops (`break`) on a length below 4
or past the end of the buffer. `none` models the uncaught `stoi` throw. -/
def parsePktLinesF (data : List Nat) : Nat → Nat → List (List Nat) → Option (List (List Nat))
  | 0, _, acc => some acc
  | fuel + 1, pos, acc =>
    if pos + 4 ≤ data.length then
      match stoi16 ((data.drop pos).take 4) with
      | none => none
      | some len =>
        if len = 0 then parsePktLinesF data fuel (pos + 4) acc
        else if len < 4 ∨ pos + len > data.length then some acc
        else
          let line := (data.drop (pos + 4)).take (len - 4)
          let line := if line.getLast? = some 10 then line.dropLast else line
          parsePktLinesF data fuel (pos + len) (acc ++ [line])
    else some acc

/-- Model of `parsePktLines` (src/main.cpp:287-303). -/
def parsePktLines (data : List Nat) : Option (List (List Nat)) :=
  parsePktLinesF data (data.length + 1) 0 []

/-! ## The pack parser (`parsePackfile`, src/main.cpp:412-503)

The per-record zlib stream is inflated by `decompressZlibStream`
(src/main.cpp:312-339), a wrapper over the external zlib; it is abstracted
as an oracle `inf : offset → (inflated bytes, compressed bytes consumed)`. -/

/-- A pack record (`struct PackObject`, src/main.cpp:403-410). Empty lists
model the default-constructed `std::string`s. -/
structure PackRec where
  type : Nat
  data : List Nat
  offset : Nat
  baseSha : List Nat
  baseOffset : Nat
  sha : List Nat
deriving DecidableEq

/-- The size-continuation loop of a record header (src/main.cpp:439-443):
`while (b & 0x80)` accumulate low 7 bits at shifts 4, 11, 18, …. Returns
`(size, cursor)`. `b` is the previously read byte. -/
def sizeContF (p : List Nat) : Nat → Nat → Nat → Nat → Nat → Nat × Nat
  | 0, pos, size, _, _ => (size, pos)
  | fuel + 1, pos, size, shift, b =>
    if b &&& 0x80 ≠ 0 then
      let b' := p.getD pos 0
      sizeContF p fuel (pos + 1) (size ||| ((b' &&& 0x7f) <<< shift)) (shift + 7) b'
    else (size, pos)

/-- The ofs-delta negative-offset loop (src/main.cpp:446-451):
`n = ((n+1) << 7) | (b & 0x7f)` per continuation byte. -/
def negOffContF (p : List Nat) : Nat → Nat → Nat → Nat → Nat × Nat
  | 0, pos, n, _ => (n, pos)
  | fuel + 1, pos, n, b =>
    if b &&& 0x80 ≠ 0 then
      let b' := p.getD pos 0
      negOffContF p fuel (pos + 1) (((n + 1) <<< 7) ||| (b' &&& 0x7f)) b'
    else (n, pos)

/-- Model of `typeToString` (src/main.cpp:343-352). -/
def typeToString (t : Nat) : List Nat :=
  if t = 1 then commitKind
  else if t = 2 then treeKind
  else if t = 3 then blobKind
  else if t = 4 then [116, 97, 103]
  else [117, 110, 107, 110, 111, 119, 110]

/-- The record-reading loop of `parsePackfile` (src/main.cpp:429-462), one
iteration per declared object. The declared inflated size is decoded only to
advance the cursor, exactly as in the source (its value is dropped). In
real packs the ofs-delta back-offset never exceeds the record offset; the
`size_t` wraparound of `objOffset - negOff` for hostile inputs is not
modelled (`Nat` subtraction truncates instead). -/
def parseRecordsF (inf : Nat → List Nat × Nat) (p : List Nat) :
    Nat → Nat → List PackRec → List PackRec
  | 0, _, acc => acc
  | n + 1, pos, acc =>
    let objOffset := pos
    let b := p.getD pos 0
    let type := (b >>> 4) &&& 0x07
    let pos1 := (sizeContF p (p.length + 2) (pos + 1) (b &&& 0x0f) 4 b).2
    let (baseSha, baseOffset, pos2) :=
      if type = 6 then
        let b1 := p.getD pos1 0
        let (negOff, pos') := negOffContF p (p.length + 2) (pos1 + 1) (b1 &&& 0x7f) b1
        (([] : List Nat), objOffset - negOff, pos')
      else if type = 7 then
        (toHexBytes ((p.drop pos1).take 20), 0, pos1 + 20)
      else ([], 0, pos1)
    let (data, consumed) := inf pos2
    parseRecordsF inf p n (pos2 + consumed)
      (acc ++ [⟨type, data, objOffset, baseSha, baseOffset, []⟩])

/-- The header check and record loop of `parsePackfile` (src/main.cpp:
412-462): `none` is the `Invalid packfile` throw when the magic is wrong;
the four version bytes are skipped (the cursor jumps from 4 to 8), and the
big-endian object count is read at offsets 8..11. -/
def parsePackRecords (inf : Nat → List Nat × Nat) (p : List Nat) :
    Option (List PackRec) :=
  if p.take 4 ≠ strBytes "PACK" then none
  else
    let n := ((p.getD 8 0) <<< 24) ||| ((p.getD 9 0) <<< 16) |||
             ((p.getD 10 0) <<< 8) ||| p.getD 11 0
    some (parseRecordsF inf p n 12 [])

/-- Model of assignment through `std::map` subscripting: replace the binding or append it. -/
def mapSet {K V : Type} [DecidableEq K] (m : List (K × V)) (k : K) (v : V) :
    List (K × V) :=
  match m with
  | [] => [(k, v)]
  | (k', v') :: rest => if k' = k then (k, v) :: rest else (k', v') :: mapSet rest k v

/-- Model of `std::map::find`. -/
def mapGet {K V : Type} [DecidableEq K] (m : List (K × V)) (k : K) : Option V :=
  match m with
  | [] => none
  | (k', v') :: rest => if k' = k then some v' else mapGet rest k

/-- The two indices built during resolution: `objects` by digest and
`offsetToSha` by record offset. -/
structure RState where
  objects : List (List Nat × PackRec)
  offsetToSha : List (Nat × List Nat)
deriving DecidableEq

/-- The first pass of `parsePackfile` (src/main.cpp:464-472): publish every
non-delta record with its computed digest. -/
def publishBase (recs : List PackRec) : List PackRec × RState :=
  recs.foldl
    (fun acc r =>
      if r.type ≠ 6 ∧ r.type ≠ 7 then
        let sha := computeSha1 (frameObj (typeToString r.type) r.data)
        let r' := { r with sha := sha }
        (acc.1 ++ [r'], ⟨mapSet acc.2.objects sha r', mapSet acc.2.offsetToSha r.offset sha⟩)
      else (acc.1 ++ [r], acc.2))
    ([], ⟨[], []⟩)

/-- One pass of the resolution loop (src/main.cpp:478-500): resolve every
not-yet-published delta whose base is known, updating the indices in
iteration order so later deltas in the same pass can use earlier results.
`none` models an exception propagating out of `applyDelta`. The returned
`Bool` is the pass's `progress` flag. -/
def resolvePass : List PackRec → RState → Bool → Option (List PackRec × RState × Bool)
  | [], st, prog => some ([], st, prog)
  | r :: rest, st, prog =>
    if r.sha ≠ [] then
      match resolvePass rest st prog with
      | none => none
      | some (l, st', pr) => some (r :: l, st', pr)
    else
      let baseSha :=
        if r.type = 6 then (mapGet st.offsetToSha r.baseOffset).getD []
        else if r.type = 7 then r.baseSha
        else []
      match (if baseSha = [] then none else mapGet st.objects baseSha) with
      | none =>
        match resolvePass rest st prog with
        | none => none
        | some (l, st', pr) => some (r :: l, st', pr)
      | some b =>
        match applyDelta b.data r.data with
        | none => none
        | some newData =>
          let sha := computeSha1 (frameObj (typeToString b.type) newData)
          let r' := { r with type := b.type, data := newData, sha := sha }
          let st' : RState :=
            ⟨mapSet st.objects sha r', mapSet st.offsetToSha r.offset sha⟩
          match resolvePass rest st' true with
          | none => none
          | some (l, st'', pr) => some (r' :: l, st'', pr)

/-- The `while (progress)` loop (src/main.cpp:475-501). Each productive pass
publishes at least one record, so `recs.length + 1` passes always reach the
no-progress fixpoint. The loop never fails on an unresolved delta: it simply
stops. -/
def resolveLoopF : Nat → List PackRec → RState → Option RState
  | 0, _, st => some st
  | fuel + 1, recs, st =>
    match resolvePass recs st false with
    | none => none
    | some (recs', st', prog) =>
      if prog then resolveLoopF fuel recs' st' else some st'

/-- The publish-and-resolve phase of `parsePackfile` (src/main.cpp:464-502)
applied to the parsed records: the returned map is the function's result. -/
def resolveAll (recs : List PackRec) : Option (List (List Nat × PackRec)) :=
  let (recs1, st1) := publishBase recs
  (resolveLoopF (recs1.length + 1) recs1 st1).map RState.objects

/-- Model of `parsePackfile` (src/main.cpp:412-503). -/
def parsePackfileModel (inf : Nat → List Nat × Nat) (p : List Nat) :
    Option (List (List Nat × PackRec)) :=
  match parsePackRecords inf p with
  | none => none
  | some recs => resolveAll recs

/-! ## Spec-side delta-instruction semantics (for claim C1)

The claim describes the delta instruction stream abstractly; the
definitions below give that abstract reading — a decoded instruction list
and its meaning — to compare against the decoder embedded above. -/

/-- An abstract delta instruction, as the claim describes them. -/
inductive DeltaInstr where
  | copy (off sz : Nat)
  | insert (payload : List Nat)

/-- Modelled from the spec: a copy appends `base[offset..offset+size]`, an
insert appends its payload; the result is the concatenation. -/
def runInstrs (base : List Nat) : List DeltaInstr → List Nat
  | [] => []
  | DeltaInstr.copy off sz :: rest => (base.drop off).take sz ++ runInstrs base rest
  | DeltaInstr.insert p :: rest => p ++ runInstrs base rest

/-- Byte encoding of one abstract instruction, as a delta producer such as
git emits them for one-byte operands: a copy is `0x91` (offset byte and
size byte present) followed by the two operand bytes; an insert is its
length byte followed by the payload. -/
def encodeInstr : DeltaInstr → List Nat
  | DeltaInstr.copy off sz => [0x91, off, sz]
  | DeltaInstr.insert p => p.length :: p

/-- Byte encoding of an instruction sequence. -/
def encodeInstrs (l : List DeltaInstr) : List Nat :=
  l.foldr (fun i acc => encodeInstr i ++ acc) []

/-- Well-formedness of an instruction against a base of length `baseLen`:
copies stay inside the base with one-byte operands, inserts carry 1..127
bytes. -/
def instrWF (baseLen : Nat) : DeltaInstr → Prop
  | DeltaInstr.copy off sz => off + sz ≤ baseLen ∧ 0 < sz ∧ sz < 256 ∧ off < 256
  | DeltaInstr.insert p => 0 < p.length ∧ p.length ≤ 127

instance (baseLen : Nat) (i : DeltaInstr) : Decidable (instrWF baseLen i) := by
  cases i <;> simp only [instrWF] <;> infer_instance

/-- The instruction list of scenario E4: copy 5 at 0, insert `" Git"`,
copy 6 at 5. -/
def e4Instrs : List DeltaInstr :=
  [DeltaInstr.copy 0 5, DeltaInstr.insert [32, 71, 105, 116], DeltaInstr.copy 5 6]

end GitSpec

/-! # Theorems -/

namespace GitSpec

/-! ## Helper lemmas: the delta decoder -/

theorem and0x80_of_lt : ∀ b < 128, b &&& 0x80 = 0 := by decide

theorem parseSizeF_stop (d : List Nat) (fuel pos acc shift : Nat)
    (hp : pos < d.length) (h : d.getD pos 0 &&& 0x80 = 0) :
    parseSizeF d (fuel + 1) pos acc shift =
      (acc ||| ((d.getD pos 0 &&& 0x7f) <<< shift), pos + 1) := by
  have h' : d[pos] &&& 0x80 = 0 := by rw [← List.getD_eq_getElem d 0 hp]; exact h
  simp [parseSizeF, hp, h']

theorem deltaLoopF_end (base d : List Nat) (fuel pos : Nat) (acc : List Nat)
    (h : ¬ pos < d.length) :
    deltaLoopF base d (fuel + 1) pos acc = some acc := by
  simp [deltaLoopF, h]

theorem deltaLoopF_skip (base d : List Nat) (fuel pos : Nat) (acc : List Nat)
    (h1 : pos < d.length) (h2 : d.getD pos 0 = 0) :
    deltaLoopF base d (fuel + 1) pos acc = deltaLoopF base d fuel (pos + 1) acc := by
  have h2' : d[pos] = 0 := by rw [← List.getD_eq_getElem d 0 h1]; exact h2
  simp [deltaLoopF, h1, h2']

theorem deltaLoopF_insert (base d : List Nat) (fuel pos c : Nat) (acc : List Nat)
    (h1 : pos < d.length) (h2 : d.getD pos 0 = c) (h3 : c &&& 0x80 = 0) (h4 : 0 < c) :
    deltaLoopF base d (fuel + 1) pos acc =
      deltaLoopF base d fuel (pos + 1 + c) (acc ++ (d.drop (pos + 1)).take c) := by
  have h2' : d[pos] = c := by rw [← List.getD_eq_getElem d 0 h1]; exact h2
  simp [deltaLoopF, h1, h2', h3, h4]

theorem deltaLoopF_copy (base d : List Nat) (fuel pos c : Nat) (acc : List Nat)
    (h1 : pos < d.length) (h2 : d.getD pos 0 = c) (h3 : c &&& 0x80 ≠ 0) :
    deltaLoopF base d (fuel + 1) pos acc =
      match substrQ base (copyParams d (pos + 1) c).1 (copyParams d (pos + 1) c).2.1 with
      | none => none
      | some piece =>
        deltaLoopF base d fuel (copyParams d (pos + 1) c).2.2 (acc ++ piece) := by
  have h2' : d[pos] = c := by rw [← List.getD_eq_getElem d 0 h1]; exact h2
  simp [deltaLoopF, h1, h2', h3]

theorem gatedByte_append (pre suf : List Nat) (p cmd mask : Nat) :
    gatedByte (pre ++ suf) (pre.length + p) cmd mask = gatedByte suf p cmd mask := by
  unfold gatedByte
  split
  · rw [List.getD_append_right _ _ _ _ (Nat.le_add_right _ _), Nat.add_sub_cancel_left]
  · rfl

theorem copyParams_append (pre suf : List Nat) (k cmd : Nat) :
    copyParams (pre ++ suf) (pre.length + k) cmd =
      ((copyParams suf k cmd).1, (copyParams suf k cmd).2.1,
       pre.length + (copyParams suf k cmd).2.2) := by
  unfold copyParams
  simp only [Nat.add_assoc, gatedByte_append]

theorem deltaLoopF_shift (base pre suf : List Nat) :
    ∀ (fuel j : Nat) (acc : List Nat),
      deltaLoopF base (pre ++ suf) fuel (pre.length + j) acc =
        deltaLoopF base suf fuel j acc := by
  intro fuel
  induction fuel with
  | zero => intro j acc; rfl
  | succ fuel ih =>
    intro j acc
    have hlen : (pre.length + j < (pre ++ suf).length) ↔ j < suf.length := by
      simp only [List.length_append]; omega
    by_cases hj : j < suf.length
    · have hcmd : (pre ++ suf).getD (pre.length + j) 0 = suf.getD j 0 := by
        rw [List.getD_append_right _ _ _ _ (Nat.le_add_right _ _), Nat.add_sub_cancel_left]
      by_cases h80 : suf.getD j 0 &&& 0x80 ≠ 0
      · rw [deltaLoopF_copy base _ fuel _ _ acc (hlen.mpr hj) hcmd h80,
            deltaLoopF_copy base suf fuel j _ acc hj rfl h80]
        have e : pre.length + j + 1 = pre.length + (j + 1) := by omega
        rw [e, copyParams_append]
        cases substrQ base (copyParams suf (j + 1) (suf.getD j 0)).1
            (copyParams suf (j + 1) (suf.getD j 0)).2.1 with
        | none => rfl
        | some piece => exact ih _ _
      · rw [not_not] at h80
        by_cases hc0 : 0 < suf.getD j 0
        · rw [deltaLoopF_insert base _ fuel _ _ acc (hlen.mpr hj) hcmd h80 hc0,
              deltaLoopF_insert base suf fuel j _ acc hj rfl h80 hc0]
          have e1 : pre.length + j + 1 = pre.length + (j + 1) := by omega
          rw [e1, List.drop_append]
          have e2 : pre.length + (j + 1) + suf.getD j 0 =
              pre.length + (j + 1 + suf.getD j 0) := by omega
          rw [e2]
          exact ih _ _
        · have hz : suf.getD j 0 = 0 := by omega
          rw [deltaLoopF_skip base _ fuel _ acc (hlen.mpr hj) (hcmd.trans hz),
              deltaLoopF_skip base suf fuel j acc hj hz]
          have e : pre.length + j + 1 = pre.length + (j + 1) := by omega
          rw [e, ih]
    · rw [deltaLoopF_end base _ fuel _ acc (by rw [hlen]; exact hj),
          deltaLoopF_end base suf fuel j acc hj]

theorem substrQ_in (s : List Nat) (pos count : Nat) (h : pos ≤ s.length) :
    substrQ s pos count = some ((s.drop pos).take count) := by
  simp [substrQ, Nat.not_lt.mpr h]

theorem copyParams_copyEnc (off sz : Nat) (rest : List Nat) :
    copyParams (0x91 :: off :: sz :: rest) 1 0x91 =
      (off, if sz = 0 then 0x10000 else sz, 3) := by
  have g1 : (0x91 : Nat) &&& 0x01 = 1 := by decide
  have g2 : (0x91 : Nat) &&& 0x02 = 0 := by decide
  have g3 : (0x91 : Nat) &&& 0x04 = 0 := by decide
  have g4 : (0x91 : Nat) &&& 0x08 = 0 := by decide
  have g5 : (0x91 : Nat) &&& 0x10 = 16 := by decide
  have g6 : (0x91 : Nat) &&& 0x20 = 0 := by decide
  have g7 : (0x91 : Nat) &&& 0x40 = 0 := by decide
  simp [copyParams, gateN, gatedByte, g1, g2, g3, g4, g5, g6, g7, List.getD,
        Nat.zero_shiftLeft, Nat.or_zero]

theorem deltaLoopF_copy_some (base d : List Nat) (fuel pos c : Nat) (acc piece : List Nat)
    (h1 : pos < d.length) (h2 : d.getD pos 0 = c) (h3 : c &&& 0x80 ≠ 0)
    (hsub : substrQ base (copyParams d (pos + 1) c).1 (copyParams d (pos + 1) c).2.1 =
      some piece) :
    deltaLoopF base d (fuel + 1) pos acc =
      deltaLoopF base d fuel (copyParams d (pos + 1) c).2.2 (acc ++ piece) := by
  rw [deltaLoopF_copy base d fuel pos c acc h1 h2 h3, hsub]

theorem encodeInstrs_cons (i : DeltaInstr) (l : List DeltaInstr) :
    encodeInstrs (i :: l) = encodeInstr i ++ encodeInstrs l := rfl

/-- Running the decoder over an encoded well-formed instruction stream
appends exactly the instructions' outputs. -/
theorem deltaLoopF_encode (base : List Nat) :
    ∀ (l : List DeltaInstr) (fuel : Nat) (acc : List Nat),
      (∀ i ∈ l, instrWF base.length i) →
      (encodeInstrs l).length < fuel →
      deltaLoopF base (encodeInstrs l) fuel 0 acc = some (acc ++ runInstrs base l) := by
  intro l
  induction l with
  | nil =>
    intro fuel acc _ hf
    obtain ⟨f, rfl⟩ : ∃ f, fuel = f + 1 := ⟨fuel - 1, by omega⟩
    rw [deltaLoopF_end _ _ _ _ _ (by simp [encodeInstrs])]
    simp [runInstrs]
  | cons i rest ih =>
    intro fuel acc hwf hf
    have hwf_i := hwf i (List.mem_cons_self i rest)
    have hwf_rest : ∀ j ∈ rest, instrWF base.length j :=
      fun j hj => hwf j (List.mem_cons_of_mem i hj)
    obtain ⟨f, rfl⟩ : ∃ f, fuel = f + 1 := ⟨fuel - 1, by omega⟩
    rw [encodeInstrs_cons] at hf ⊢
    cases i with
    | insert p =>
      obtain ⟨hp0, hp127⟩ := hwf_i
      have henc : encodeInstr (DeltaInstr.insert p) ++ encodeInstrs rest =
          p.length :: (p ++ encodeInstrs rest) := by simp [encodeInstr]
      rw [henc]
      rw [deltaLoopF_insert base (p.length :: (p ++ encodeInstrs rest)) f 0 p.length acc
        (by simp) rfl (and0x80_of_lt p.length (by omega)) hp0]
      have hdrop : ((p.length :: (p ++ encodeInstrs rest)).drop (0 + 1)).take p.length = p := by
        show (p ++ encodeInstrs rest).take p.length = p
        exact List.take_left p (encodeInstrs rest)
      rw [hdrop]
      have hpos : 0 + 1 + p.length = (encodeInstr (DeltaInstr.insert p)).length + 0 := by
        simp [encodeInstr]; omega
      rw [← henc, hpos, deltaLoopF_shift base (encodeInstr (DeltaInstr.insert p))
        (encodeInstrs rest) f 0 (acc ++ p)]
      rw [ih f (acc ++ p) hwf_rest (by simp [encodeInstr] at hf ⊢; omega)]
      simp [runInstrs, encodeInstr]
    | copy off sz =>
      obtain ⟨hin, hsz0, hsz256, hoff256⟩ := hwf_i
      have henc : encodeInstr (DeltaInstr.copy off sz) ++ encodeInstrs rest =
          0x91 :: off :: sz :: encodeInstrs rest := by simp [encodeInstr]
      rw [henc]
      have hsub : substrQ base
          (copyParams (0x91 :: off :: sz :: encodeInstrs rest) (0 + 1) 0x91).1
          (copyParams (0x91 :: off :: sz :: encodeInstrs rest) (0 + 1) 0x91).2.1 =
          some ((base.drop off).take sz) := by
        rw [show (0 + 1 : Nat) = 1 from rfl, copyParams_copyEnc]
        show substrQ base off (if sz = 0 then 0x10000 else sz) = _
        rw [if_neg (by omega), substrQ_in base off sz (by omega)]
      rw [deltaLoopF_copy_some base (0x91 :: off :: sz :: encodeInstrs rest) f 0 0x91 acc
        ((base.drop off).take sz) (by simp) rfl (by decide) hsub]
      have hpp : (copyParams (0x91 :: off :: sz :: encodeInstrs rest) (0 + 1) 0x91).2.2 =
          (encodeInstr (DeltaInstr.copy off sz)).length + 0 := by
        rw [show (0 + 1 : Nat) = 1 from rfl, copyParams_copyEnc]
        simp [encodeInstr]
      rw [hpp, ← henc, deltaLoopF_shift base (encodeInstr (DeltaInstr.copy off sz))
        (encodeInstrs rest) f 0 (acc ++ (base.drop off).take sz)]
      rw [ih f (acc ++ (base.drop off).take sz) hwf_rest
        (by simp [encodeInstr] at hf ⊢; omega)]
      simp [runInstrs, encodeInstr]

/-- The header of `applyDelta` with single-byte declared sizes: the
instruction loop starts at position 2. -/
theorem applyDelta_header (base : List Nat) (s t : Nat) (rest : List Nat)
    (hs : s < 128) (ht : t < 128) :
    applyDelta base (s :: t :: rest) =
      deltaLoopF base (s :: t :: rest) ((s :: t :: rest).length + 1) 2 [] := by
  have h2 : (s :: t :: rest).getD 0 0 &&& 0x80 = 0 := and0x80_of_lt s hs
  have h4 : (s :: t :: rest).getD 1 0 &&& 0x80 = 0 := and0x80_of_lt t ht
  simp only [applyDelta]
  rw [parseSizeF_stop _ _ _ _ _ (by simp) h2]
  rw [parseSizeF_stop _ _ _ _ _ (by simp) h4]

/-! ## Claims C1, C5, C10: the delta decoder -/

/-- A copy instruction with all seven operand-byte gates set (`cmd = 0xff`)
decodes its offset from 4 bytes and its size from 3 bytes, LSB-first, and
appends the clamped slice of the base — regardless of the declared sizes
`s`, `t` at the head of the delta. -/
theorem applyDelta_copy_ff (B : List Nat) (s t o0 o1 o2 o3 z0 z1 z2 : Nat)
    (hs : s < 128) (ht : t < 128)
    (hoff : o0 ||| (o1 <<< 8) ||| (o2 <<< 16) ||| (o3 <<< 24) ≤ B.length)
    (hsz : z0 ||| (z1 <<< 8) ||| (z2 <<< 16) ≠ 0) :
    applyDelta B [s, t, 0xff, o0, o1, o2, o3, z0, z1, z2] =
      some ((B.drop (o0 ||| (o1 <<< 8) ||| (o2 <<< 16) ||| (o3 <<< 24))).take
        (z0 ||| (z1 <<< 8) ||| (z2 <<< 16))) := by
  rw [applyDelta_header B s t [0xff, o0, o1, o2, o3, z0, z1, z2] hs ht]
  have hcp : copyParams (s :: t :: 0xff :: o0 :: o1 :: o2 :: o3 :: z0 :: z1 :: z2 :: [])
      (2 + 1) 0xff =
      (o0 ||| (o1 <<< 8) ||| (o2 <<< 16) ||| (o3 <<< 24),
       if z0 ||| (z1 <<< 8) ||| (z2 <<< 16) = 0 then 0x10000
       else z0 ||| (z1 <<< 8) ||| (z2 <<< 16), 10) := by
    have g1 : (0xff : Nat) &&& 0x01 = 1 := by decide
    have g2 : (0xff : Nat) &&& 0x02 = 2 := by decide
    have g3 : (0xff : Nat) &&& 0x04 = 4 := by decide
    have g4 : (0xff : Nat) &&& 0x08 = 8 := by decide
    have g5 : (0xff : Nat) &&& 0x10 = 16 := by decide
    have g6 : (0xff : Nat) &&& 0x20 = 32 := by decide
    have g7 : (0xff : Nat) &&& 0x40 = 64 := by decide
    simp [copyParams, gateN, gatedByte, g1, g2, g3, g4, g5, g6, g7, List.getD]
  have hsub : substrQ B
      (copyParams (s :: t :: 0xff :: o0 :: o1 :: o2 :: o3 :: z0 :: z1 :: z2 :: [])
        (2 + 1) 0xff).1
      (copyParams (s :: t :: 0xff :: o0 :: o1 :: o2 :: o3 :: z0 :: z1 :: z2 :: [])
        (2 + 1) 0xff).2.1 =
      some ((B.drop (o0 ||| (o1 <<< 8) ||| (o2 <<< 16) ||| (o3 <<< 24))).take
        (z0 ||| (z1 <<< 8) ||| (z2 <<< 16))) := by
    rw [hcp]
    show substrQ B (o0 ||| (o1 <<< 8) ||| (o2 <<< 16) ||| (o3 <<< 24))
        (if z0 ||| (z1 <<< 8) ||| (z2 <<< 16) = 0 then 0x10000
         else z0 ||| (z1 <<< 8) ||| (z2 <<< 16)) = _
    rw [if_neg hsz, substrQ_in _ _ _ hoff]
  rw [deltaLoopF_copy_some B (s :: t :: 0xff :: o0 :: o1 :: o2 :: o3 :: z0 :: z1 :: z2 :: [])
    (s :: t :: 0xff :: o0 :: o1 :: o2 :: o3 :: z0 :: z1 :: z2 :: []).length 2 0xff []
    ((B.drop (o0 ||| (o1 <<< 8) ||| (o2 <<< 16) ||| (o3 <<< 24))).take
      (z0 ||| (z1 <<< 8) ||| (z2 <<< 16)))
    (by simp) rfl (by decide) hsub]
  have hpp : (copyParams (s :: t :: 0xff :: o0 :: o1 :: o2 :: o3 :: z0 :: z1 :: z2 :: [])
      (2 + 1) 0xff).2.2 = 10 := by rw [hcp]
  rw [hpp]
  have hfuel : (s :: t :: 0xff :: o0 :: o1 :: o2 :: o3 :: z0 :: z1 :: z2 :: []).length =
      9 + 1 := by simp
  rw [hfuel, deltaLoopF_end _ _ _ _ _ (by simp)]
  simp

/-- Claim C1, counterexample: A delta whose declared source size equals the
base length (both 0) and whose declared target size is 5, consisting of the
single valid instruction "insert one byte `0x78`": `applyDelta` succeeds and
returns 1 byte, not the declared 5 — the result does not have exactly `T`
bytes. -/
theorem C1_counterexample :
    declaredSrcSize [0, 5, 1, 120] = ([] : List Nat).length ∧
    declaredTgtSize [0, 5, 1, 120] = 5 ∧
    applyDelta [] [0, 5, 1, 120] = some [120] ∧
    ([120] : List Nat).length ≠ 5 := by decide

/-- Claim C1, amended: `applyDelta` interprets a leading byte with its high
bit set as a copy (operand bytes gated by the low bits, LSB-first, size 0
meaning `0x10000`, appending `base[offset..offset+size]`) and a byte
`1..127` as an insert of the next `cmd` bytes; the result is the
concatenation of the instruction outputs (the declared target size is not
enforced). Concretely: a stream of in-bounds one-byte-operand copies and
inserts decodes to `runInstrs`; a copy with all four offset bytes and all
three size bytes present decodes them LSB-first; and the E4 example on base
`"Hello World"` yields `"Hello Git World"`. -/
theorem C1_applyDelta_interp :
    (∀ (base : List Nat) (s t : Nat) (l : List DeltaInstr),
      s < 128 → t < 128 → (∀ i ∈ l, instrWF base.length i) →
      applyDelta base (s :: t :: encodeInstrs l) = some (runInstrs base l)) ∧
    (∀ (B : List Nat) (s t o0 o1 o2 o3 z0 z1 z2 : Nat),
      s < 128 → t < 128 →
      o0 ||| (o1 <<< 8) ||| (o2 <<< 16) ||| (o3 <<< 24) ≤ B.length →
      z0 ||| (z1 <<< 8) ||| (z2 <<< 16) ≠ 0 →
      applyDelta B [s, t, 0xff, o0, o1, o2, o3, z0, z1, z2] =
        some ((B.drop (o0 ||| (o1 <<< 8) ||| (o2 <<< 16) ||| (o3 <<< 24))).take
          (z0 ||| (z1 <<< 8) ||| (z2 <<< 16)))) ∧
    applyDelta helloWorldBytes e4Delta = some helloGitWorldBytes := by
  refine ⟨?_, applyDelta_copy_ff, ?_⟩
  · intro base s t l hs ht hwf
    rw [applyDelta_header base s t (encodeInstrs l) hs ht]
    simp only [List.length_cons]
    have hshift := deltaLoopF_shift base [s, t] (encodeInstrs l)
      ((encodeInstrs l).length + 1 + 1 + 1) 0 []
    simp only [List.cons_append, List.nil_append, List.length_cons, List.length_nil] at hshift
    have e2 : (0 : Nat) + 1 + 1 + 0 = 2 := rfl
    rw [e2] at hshift
    rw [hshift]
    exact deltaLoopF_encode base l ((encodeInstrs l).length + 1 + 1 + 1) [] hwf (by omega)
  · decide

/-- Claim C1, witness: The amended theorem applied at the E4 instruction list. -/
theorem C1_witness :
    applyDelta helloWorldBytes (11 :: 15 :: encodeInstrs e4Instrs) =
      some (runInstrs helloWorldBytes e4Instrs) :=
  C1_applyDelta_interp.1 helloWorldBytes 11 15 e4Instrs (by decide) (by decide) (by decide)

/-- Claim C5, counterexample: A delta containing the reserved instruction byte
`cmd == 0` (declared sizes 0 and 1, then `0x00`, then "insert `A`"):
`applyDelta` does not reject it — it succeeds, returning the insert's
output. -/
theorem C5_counterexample : applyDelta [] [0, 1, 0, 1, 65] = some [65] := by decide

/-- Claim C5, amended: An instruction byte `cmd == 0` is silently skipped: it
consumes only the command byte, appends nothing, and the delta is processed
as if the byte were absent (no `CorruptDelta` error exists in the code). -/
theorem C5_cmd0_skip (base : List Nat) (s t : Nat) (rest : List Nat)
    (hs : s < 128) (ht : t < 128) :
    applyDelta base (s :: t :: 0 :: rest) = applyDelta base (s :: t :: rest) := by
  rw [applyDelta_header base s t (0 :: rest) hs ht,
      applyDelta_header base s t rest hs ht]
  rw [deltaLoopF_skip base (s :: t :: 0 :: rest) (s :: t :: 0 :: rest).length 2 []
    (by simp) rfl]
  have hL := deltaLoopF_shift base [s, t, 0] rest (s :: t :: 0 :: rest).length 0 []
  simp only [List.cons_append, List.nil_append, List.length_cons, List.length_nil] at hL ⊢
  have e3 : (0 : Nat) + 1 + 1 + 1 + 0 = 2 + 1 := rfl
  rw [e3] at hL
  rw [hL]
  have hR := deltaLoopF_shift base [s, t] rest (rest.length + 1 + 1 + 1) 0 []
  simp only [List.cons_append, List.nil_append, List.length_cons, List.length_nil] at hR
  have e2 : (0 : Nat) + 1 + 1 + 0 = 2 := rfl
  rw [e2] at hR
  rw [hR]

/-- Claim C5, witness: Removing a `cmd == 0` byte does not change the result:
the C5 theorem at the counterexample's delta. -/
theorem C5_witness :
    applyDelta [] [0, 1, 0, 1, 65] = applyDelta [] [0, 1, 1, 65] :=
  C5_cmd0_skip [] 0 1 [1, 65] (by decide) (by decide)

/-- Claim C10, confirmed: `applyDelta` never checks the declared sizes (`s`
and `t` below are arbitrary and absent from the conclusion) and a copy
whose range `off..off+sz` leaves the base is silently clamped by
`substr`: with `off ≤ |B|` the copy appends `(B.drop off).take sz`, which
is all of `B.drop off` — fewer than `sz` bytes — whenever
`|B| < off + sz`, so the result can be shorter than the declared target. -/
theorem C10_copy_truncation (B : List Nat) (s t o0 o1 o2 o3 z0 z1 z2 : Nat)
    (hs : s < 128) (ht : t < 128)
    (hoff : o0 ||| (o1 <<< 8) ||| (o2 <<< 16) ||| (o3 <<< 24) ≤ B.length)
    (hsz : z0 ||| (z1 <<< 8) ||| (z2 <<< 16) ≠ 0) :
    applyDelta B [s, t, 0xff, o0, o1, o2, o3, z0, z1, z2] =
      some ((B.drop (o0 ||| (o1 <<< 8) ||| (o2 <<< 16) ||| (o3 <<< 24))).take
        (z0 ||| (z1 <<< 8) ||| (z2 <<< 16))) ∧
    (B.length < (o0 ||| (o1 <<< 8) ||| (o2 <<< 16) ||| (o3 <<< 24)) +
        (z0 ||| (z1 <<< 8) ||| (z2 <<< 16)) →
      (B.drop (o0 ||| (o1 <<< 8) ||| (o2 <<< 16) ||| (o3 <<< 24))).take
        (z0 ||| (z1 <<< 8) ||| (z2 <<< 16)) =
        B.drop (o0 ||| (o1 <<< 8) ||| (o2 <<< 16) ||| (o3 <<< 24))) := by
  constructor
  · exact applyDelta_copy_ff B s t o0 o1 o2 o3 z0 z1 z2 hs ht hoff hsz
  · intro hover
    apply List.take_of_length_le
    simp only [List.length_drop]
    omega

/-- Claim C10, witness: Base `"ab"`, declared sizes 2 and 5, copy 4 bytes at
offset 1: the result is the single byte `"b"` — truncated at the base end
and shorter than the declared target 5. -/
theorem C10_witness :
    applyDelta [97, 98] [2, 5, 0xff, 1, 0, 0, 0, 4, 0, 0] = some [98] ∧
    (2 : Nat) < 1 + 4 := by
  have h := C10_copy_truncation [97, 98] 2 5 1 0 0 0 4 0 0
    (by decide) (by decide) (by decide) (by decide)
  constructor
  · rw [h.1]
    decide
  · decide

/-! ## Helper lemmas: byte-wise order and entry sorting (claim C2) -/

theorem bytesLt_asymm : ∀ a b : List Nat, bytesLt a b = true → bytesLt b a = false
  | [], [] => by simp [bytesLt]
  | [], _ :: _ => by simp [bytesLt]
  | _ :: _, [] => by simp [bytesLt]
  | x :: xs, y :: ys => by
    simp only [bytesLt]
    split_ifs with h1 h2 h3 h4 <;> try omega
    all_goals simp_all
    exact bytesLt_asymm xs ys

theorem bytesLt_conn : ∀ a b : List Nat,
    bytesLt a b = false → bytesLt b a = false → a = b
  | [], [] => by simp
  | [], _ :: _ => by simp [bytesLt]
  | _ :: _, [] => by simp [bytesLt]
  | x :: xs, y :: ys => by
    simp only [bytesLt]
    split_ifs with h1 h2 h3 h4 <;> try omega
    all_goals simp_all
    intro ha hb
    have hxy : x = y := by omega
    exact ⟨hxy, bytesLt_conn xs ys ha hb⟩

theorem bytesLt_trans : ∀ a b c : List Nat,
    bytesLt a b = true → bytesLt b c = true → bytesLt a c = true
  | [], b, c => by
    cases b with
    | nil => simp [bytesLt]
    | cons y ys =>
      cases c with
      | nil => simp [bytesLt]
      | cons z zs => intro _ _; simp [bytesLt]
  | _ :: _, [], _ => by simp [bytesLt]
  | _ :: _, _ :: _, [] => by simp [bytesLt]
  | x :: xs, y :: ys, z :: zs => by
    simp only [bytesLt]
    split_ifs with h1 h2 h3 h4 h5 h6 <;> try simp_all <;> try omega
    exact bytesLt_trans xs ys zs

theorem mem_insertEntry (e x : TreeEntry) : ∀ l : List TreeEntry,
    x ∈ insertEntry e l ↔ x = e ∨ x ∈ l
  | [] => by simp [insertEntry]
  | y :: ys => by
    simp only [insertEntry]
    split_ifs with h
    · simp [or_comm, or_assoc, or_left_comm]
    · simp only [List.mem_cons, mem_insertEntry e x ys]
      tauto

theorem insertEntry_pairwise (e : TreeEntry) :
    ∀ l : List TreeEntry,
      l.Pairwise (fun x y => bytesLt y.name x.name = false) →
      (insertEntry e l).Pairwise (fun x y => bytesLt y.name x.name = false)
  | [], _ => by simp [insertEntry]
  | x :: xs, h => by
    obtain ⟨hx, hxs⟩ := List.pairwise_cons.mp h
    simp only [insertEntry]
    split_ifs with hlt
    · refine List.pairwise_cons.mpr ⟨?_, h⟩
      intro y hy
      rcases List.mem_cons.mp hy with rfl | hyxs
      · exact bytesLt_asymm _ _ hlt
      · cases hba : bytesLt y.name e.name with
        | false => rfl
        | true =>
          have : bytesLt y.name x.name = true := bytesLt_trans _ _ _ hba hlt
          rw [hx y hyxs] at this
          simp at this
    · refine List.pairwise_cons.mpr ⟨?_, insertEntry_pairwise e xs hxs⟩
      intro y hy
      rcases (mem_insertEntry e y xs).mp hy with rfl | hyxs
      · simpa using hlt
      · exact hx y hyxs

theorem insertEntry_perm (e : TreeEntry) :
    ∀ l : List TreeEntry, (insertEntry e l).Perm (e :: l)
  | [] => List.Perm.refl _
  | x :: xs => by
    simp only [insertEntry]
    split_ifs with h
    · exact List.Perm.refl _
    · exact ((insertEntry_perm e xs).cons x).trans (List.Perm.swap e x xs)

theorem sortEntries_pairwise :
    ∀ l : List TreeEntry,
      (sortEntries l).Pairwise (fun x y => bytesLt y.name x.name = false)
  | [] => List.Pairwise.nil
  | x :: xs => insertEntry_pairwise x (sortEntries xs) (sortEntries_pairwise xs)

theorem sortEntries_perm : ∀ l : List TreeEntry, (sortEntries l).Perm l
  | [] => List.Perm.refl _
  | x :: xs => (insertEntry_perm x (sortEntries xs)).trans ((sortEntries_perm xs).cons x)

/-- Entries with pairwise-distinct names, sorted by the comparator, are
strictly sorted by name. -/
theorem sortEntries_strict (l : List TreeEntry)
    (hnodup : (l.map TreeEntry.name).Nodup) :
    ((sortEntries l).map TreeEntry.name).Pairwise (fun a b => bytesLt a b = true) := by
  have hperm : ((sortEntries l).map TreeEntry.name).Perm (l.map TreeEntry.name) :=
    (sortEntries_perm l).map TreeEntry.name
  have hnd : ((sortEntries l).map TreeEntry.name).Nodup := hperm.nodup_iff.mpr hnodup
  have hne : (sortEntries l).Pairwise (fun x y : TreeEntry => x.name ≠ y.name) :=
    List.pairwise_map.mp hnd
  have hle := sortEntries_pairwise l
  rw [List.pairwise_map]
  exact (hle.and hne).imp (fun {x y} h => by
    cases hxy : bytesLt x.name y.name with
    | true => rfl
    | false => exact (h.2 (bytesLt_conn _ _ hxy h.1)).elim)

theorem splitAtByte_append (b : Nat) : ∀ (p s : List Nat), b ∉ p →
    splitAtByte b (p ++ b :: s) = some (p, s)
  | [], s, _ => by simp [splitAtByte]
  | x :: xs, s, h => by
    have hx : ¬ x = b := fun he => h (he ▸ List.mem_cons_self x xs)
    have hxs : b ∉ xs := fun hm => h (List.mem_cons_of_mem x hm)
    rw [List.cons_append]
    simp only [splitAtByte, if_neg hx]
    rw [splitAtByte_append b xs s hxs]

theorem serializeEntries_length : ∀ L : List TreeEntry,
    L.length ≤ (serializeEntries L).length
  | [] => Nat.le_refl 0
  | e :: L => by
    have ih := serializeEntries_length L
    show (e :: L).length ≤ (serializeEntry e ++ serializeEntries L).length
    rw [List.length_append, List.length_cons]
    have h1 : 1 ≤ (serializeEntry e).length := by simp [serializeEntry]; omega
    omega

theorem parse_serialize : ∀ (L : List TreeEntry) (fuel : Nat),
    (∀ e ∈ L, (e.mode = dirModeBytes ∨ e.mode = fileModeBytes) ∧
      (0 : Nat) ∉ e.name ∧ e.sha.length = 20) →
    L.length ≤ fuel →
    parseTreeEntriesF fuel (serializeEntries L) = L.map (fun e => (e.mode, e.name))
  | [], fuel, _, _ => by cases fuel <;> simp [parseTreeEntriesF, serializeEntries]
  | e :: L, fuel, h, hfuel => by
    obtain ⟨f, rfl⟩ : ∃ f, fuel = f + 1 := ⟨fuel - 1, by simp at hfuel; omega⟩
    obtain ⟨hmode, hnul, hsha⟩ := h e (List.mem_cons_self e L)
    have hform : serializeEntries (e :: L) =
        e.mode ++ (32 :: (e.name ++ (0 :: (e.sha ++ serializeEntries L)))) := by
      show serializeEntry e ++ serializeEntries L = _
      simp [serializeEntry]
    rw [hform]
    have hne : (e.mode ++ (32 :: (e.name ++ (0 :: (e.sha ++ serializeEntries L))))).isEmpty
        = false := by
      rcases hmode with h' | h' <;> rw [h'] <;> rfl
    have hm32 : (32 : Nat) ∉ e.mode := by
      rcases hmode with h' | h' <;> rw [h'] <;> decide
    simp only [parseTreeEntriesF, hne, Bool.false_eq_true, if_false,
      splitAtByte_append 32 e.mode _ hm32, splitAtByte_append 0 e.name _ hnul]
    rw [← hsha, List.drop_left]
    rw [parse_serialize L f (fun x hx => h x (List.mem_cons_of_mem e hx))
      (by simp at hfuel; omega)]
    simp

theorem sha1Bytes_length (msg : List Nat) : (sha1Bytes msg).length = 20 := by
  simp [sha1Bytes, sha1Digest, be32]

theorem scanEntry_some (fuel : Nat) (c : List Nat × FsNode) (e : TreeEntry)
    (h : scanEntry fuel c = some e) :
    (e.mode = dirModeBytes ∨ e.mode = fileModeBytes) ∧
      e.name = c.1 ∧ e.sha.length = 20 := by
  unfold scanEntry at h
  split_ifs at h
  rcases c with ⟨name, node⟩
  cases node with
  | file content =>
    simp only [Option.some.injEq] at h
    subst h
    exact ⟨Or.inr rfl, rfl, sha1Bytes_length _⟩
  | dir sub =>
    simp only [Option.some.injEq] at h
    subst h
    exact ⟨Or.inl rfl, rfl, sha1Bytes_length _⟩
  | other => simp at h

theorem scan_names_sublist (fuel : Nat) : ∀ children : List (List Nat × FsNode),
    ((children.filterMap (scanEntry fuel)).map TreeEntry.name).Sublist
      (children.map Prod.fst)
  | [] => List.Sublist.refl _
  | c :: children => by
    rcases hc : scanEntry fuel c with _ | e
    · simp only [List.filterMap_cons, hc, List.map_cons]
      exact (scan_names_sublist fuel children).cons c.1
    · simp only [List.filterMap_cons, hc, List.map_cons]
      have : e.name = c.1 := (scanEntry_some fuel c e hc).2.1
      rw [this]
      exact (scan_names_sublist fuel children).cons₂ c.1

theorem treeStep_fold_fst (zl : ZlibModel) (ok : Bool)
    (rec : FS → List (List Nat × FsNode) → List Nat × FS)
    (payloadOf : List (List Nat × FsNode) → List Nat)
    (hrec : ∀ fs sub, (rec fs sub).1 = payloadOf sub) :
    ∀ (children : List (List Nat × FsNode)) (es : List TreeEntry) (fs : FS),
      (children.foldl (treeStep zl ok rec) (es, fs)).1 =
        es ++ children.filterMap (fun c =>
          if c.1 = dotGitBytes then none
          else
            match c.2 with
            | FsNode.file content =>
              some ⟨fileModeBytes, c.1, sha1Bytes (frameObj blobKind content)⟩
            | FsNode.dir sub =>
              some ⟨dirModeBytes, c.1, sha1Bytes (frameObj treeKind (payloadOf sub))⟩
            | FsNode.other => none)
  | [], es, fs => by simp
  | c :: children, es, fs => by
    rcases c with ⟨name, node⟩
    by_cases hdg : name = dotGitBytes
    · simp only [List.foldl_cons, List.filterMap_cons]
      rw [show treeStep zl ok rec (es, fs) (name, node) = (es, fs) from by
        simp [treeStep, hdg]]
      simp only [hdg, if_pos rfl]
      exact treeStep_fold_fst zl ok rec payloadOf hrec children es fs
    · cases node with
      | file content =>
        simp only [List.foldl_cons, List.filterMap_cons]
        rw [show treeStep zl ok rec (es, fs) (name, FsNode.file content) =
            (es ++ [⟨fileModeBytes, name, sha1Bytes (frameObj blobKind content)⟩],
             (writeObject zl ok fs (frameObj blobKind content)).2) from by
          simp [treeStep, hdg]]
        rw [treeStep_fold_fst zl ok rec payloadOf hrec children _ _]
        simp [hdg]
      | dir sub =>
        simp only [List.foldl_cons, List.filterMap_cons]
        rw [show treeStep zl ok rec (es, fs) (name, FsNode.dir sub) =
            (es ++ [⟨dirModeBytes, name, sha1Bytes (frameObj treeKind (payloadOf sub))⟩],
             (rec fs sub).2) from by
          rcases hr : rec fs sub with ⟨sp, fs'⟩
          have hsp : sp = payloadOf sub := by rw [← hrec fs sub, hr]
          subst hsp
          simp [treeStep, hdg, hr]]
        rw [treeStep_fold_fst zl ok rec payloadOf hrec children _ _]
        simp [hdg]
      | other =>
        simp only [List.foldl_cons, List.filterMap_cons]
        rw [show treeStep zl ok rec (es, fs) (name, FsNode.other) = (es, fs) from by
          simp [treeStep, hdg]]
        simp only [hdg, if_neg hdg]
        exact treeStep_fold_fst zl ok rec payloadOf hrec children es fs

theorem writeTreeRun_fst : ∀ (fuel : Nat) (zl : ZlibModel) (ok : Bool) (fs : FS)
    (children : List (List Nat × FsNode)),
    (writeTreeRun zl ok fuel fs children).1 = pureTreePayloadF fuel children
  | 0, zl, ok, fs, children => rfl
  | fuel + 1, zl, ok, fs, children => by
    rcases hFold : children.foldl (treeStep zl ok (writeTreeRun zl ok fuel)) ([], fs)
      with ⟨entries, fs1⟩
    have hE : entries = children.filterMap (fun c =>
        if c.1 = dotGitBytes then none
        else
          match c.2 with
          | FsNode.file content =>
            some ⟨fileModeBytes, c.1, sha1Bytes (frameObj blobKind content)⟩
          | FsNode.dir sub =>
            some ⟨dirModeBytes, c.1, sha1Bytes (frameObj treeKind (pureTreePayloadF fuel sub))⟩
          | FsNode.other => none) := by
      have := treeStep_fold_fst zl ok (writeTreeRun zl ok fuel) (pureTreePayloadF fuel)
        (fun fs' sub => writeTreeRun_fst fuel zl ok fs' sub) children [] fs
      rw [hFold] at this
      simpa using this
    show (match children.foldl (treeStep zl ok (writeTreeRun zl ok fuel)) ([], fs) with
      | (entries, fs1) =>
        let payload := serializeEntries (sortEntries entries)
        let r := writeObject zl ok fs1 (frameObj treeKind payload)
        (payload, r.2)).1 = _
    rw [hFold]
    simp only []
    rw [hE]
    rfl

/-! ## Claim C2: tree entry ordering -/

/-- Claim C2, counterexample: A directory containing a subdirectory `"a"` and
a regular file `"a.b"`: `writeTree` sorts by the plain names, putting `"a"`
(the directory) first; under the claimed rule — directory names compare
with a trailing `/` — the key `"a/"` is *greater* than `"a.b"`, so the
produced payload is not sorted the way the claim states. -/
theorem C2_counterexample :
    treeEntryPairs (writeTreePayload 2 [([97], FsNode.dir []), ([97, 46, 98], FsNode.file [120])]) =
      [(dirModeBytes, [97]), (fileModeBytes, [97, 46, 98])] ∧
    ¬ (treeEntryPairs (writeTreePayload 2
        [([97], FsNode.dir []), ([97, 46, 98], FsNode.file [120])])).Pairwise
        (fun a b => bytesLt (specEntryKey a) (specEntryKey b) = true) := by
  constructor
  · decide
  · decide

/-- Claim C2, amended: The payload of every Tree object produced by
`writeTree` is a strictly sorted sequence of entries, ordered by the entry
name taken as an unsigned byte sequence — the plain name, with no trailing
`/` adjustment for directories. (Hypotheses: directory listings contain
pairwise-distinct names, and filesystem names contain no NUL byte.) -/
theorem C2_tree_sorted (fuel : Nat) (children : List (List Nat × FsNode))
    (hnodup : (children.map Prod.fst).Nodup)
    (hnul : ∀ c ∈ children, (0 : Nat) ∉ c.1) :
    ((treeEntryPairs (writeTreePayload fuel children)).map Prod.snd).Pairwise
      (fun a b => bytesLt a b = true) := by
  cases fuel with
  | zero => simp [writeTreePayload, writeTreeRun, treeEntryPairs, parseTreeEntriesF]
  | succ fuel =>
    have hpay : writeTreePayload (fuel + 1) children =
        serializeEntries (sortEntries (children.filterMap (scanEntry fuel))) := by
      rw [writeTreePayload, writeTreeRun_fst]
      rfl
    rw [hpay]
    set L := sortEntries (children.filterMap (scanEntry fuel)) with hL
    have hmemL : ∀ e ∈ L, (e.mode = dirModeBytes ∨ e.mode = fileModeBytes) ∧
        (0 : Nat) ∉ e.name ∧ e.sha.length = 20 := by
      intro e he
      have he' : e ∈ children.filterMap (scanEntry fuel) :=
        (sortEntries_perm _).mem_iff.mp he
      obtain ⟨c, hc, hsome⟩ := List.mem_filterMap.mp he'
      obtain ⟨hmode, hname, hsha⟩ := scanEntry_some fuel c e hsome
      exact ⟨hmode, hname ▸ hnul c hc, hsha⟩
    have hparse : treeEntryPairs (serializeEntries L) =
        L.map (fun e => (e.mode, e.name)) := by
      unfold treeEntryPairs
      exact parse_serialize L _ hmemL
        (Nat.le_succ_of_le (serializeEntries_length L))
    rw [hparse]
    have hnodupL : ((children.filterMap (scanEntry fuel)).map TreeEntry.name).Nodup :=
      hnodup.sublist (scan_names_sublist fuel children)
    have := sortEntries_strict (children.filterMap (scanEntry fuel)) hnodupL
    rw [← hL] at this
    have hmm : (L.map (fun e => (e.mode, e.name))).map Prod.snd = L.map TreeEntry.name := by
      simp [List.map_map]
    rw [hmm]
    exact this

/-- Claim C2, witness: A directory with files `"b"` and `"a"`: the produced
payload lists `"a"` before `"b"`, strictly sorted byte-wise. -/
theorem C2_witness :
    ((treeEntryPairs (writeTreePayload 1
        [([98], FsNode.file [73]), ([97], FsNode.file [])])).map Prod.snd).Pairwise
      (fun a b => bytesLt a b = true) :=
  C2_tree_sorted 1 [([98], FsNode.file [73]), ([97], FsNode.file [])]
    (by decide) (by decide)

/-! ## Helper lemmas: the store and framing (claims C4, C6) -/

theorem lookupFS_setFS : ∀ (fs : FS) (k v : List Nat),
    lookupFS (setFS fs k v) k = some v
  | [], k, v => by simp [setFS, lookupFS]
  | (k', v') :: rest, k, v => by
    by_cases h : k' = k
    · simp [setFS, lookupFS, h]
    · simp only [setFS, if_neg h, lookupFS]
      exact lookupFS_setFS rest k v

theorem decDigitsAux_range : ∀ (fuel n : Nat), ∀ d ∈ decDigitsAux fuel n,
    48 ≤ d ∧ d ≤ 57
  | 0, _ => by simp [decDigitsAux]
  | fuel + 1, n => by
    intro d hd
    simp only [decDigitsAux] at hd
    split_ifs at hd with h
    · simp at hd
      omega
    · rcases List.mem_append.mp hd with h1 | h2
      · exact decDigitsAux_range fuel (n / 10) d h1
      · simp at h2
        omega

theorem zero_not_mem_frameHeader (kind : List Nat) (len : Nat)
    (hk : (0 : Nat) ∉ kind) : (0 : Nat) ∉ kind ++ [32] ++ decBytes len := by
  intro hmem
  rcases List.mem_append.mp hmem with h1 | h2
  · rcases List.mem_append.mp h1 with h3 | h4
    · exact hk h3
    · simp at h4
  · have := decDigitsAux_range (len + 1) len 0 h2
    omega

theorem splitAtByte_frameObj (kind payload : List Nat) (hk : (0 : Nat) ∉ kind) :
    splitAtByte 0 (frameObj kind payload) =
      some (kind ++ [32] ++ decBytes payload.length, payload) := by
  have hform : frameObj kind payload =
      (kind ++ [32] ++ decBytes payload.length) ++ 0 :: payload := by
    simp [frameObj]
  rw [hform]
  exact splitAtByte_append 0 _ payload (zero_not_mem_frameHeader kind payload.length hk)

/-! ## Claim C4: store write idempotence -/

/-- Claim C4, counterexample: A store whose file at `writeObject`'s target
path holds `[1, 2, 3]`: `writeObject` does not skip the existing file — it
truncates and rewrites it, and the bytes change. -/
theorem C4_counterexample :
    lookupFS [(computeSha1 [9], [1, 2, 3])] (computeSha1 [9]) = some [1, 2, 3] ∧
    lookupFS (writeObject idZlib true [(computeSha1 [9], [1, 2, 3])] [9]).2
      (computeSha1 [9]) = some [9] ∧
    some [9] ≠ some [1, 2, 3] := by
  refine ⟨by decide, by decide, by decide⟩

/-- Claim C4, amended: `writeObjectWithSha` is a no-op when the target path
already exists; `writeObject` performs no existence check and always
(re)writes the target, leaving it holding the deflated object data — bytes
identical to a fresh write (and to the prior content whenever that content
was the object's own compressed form). -/
theorem C4_write_behavior :
    (∀ (zl : ZlibModel) (ok : Bool) (fs : FS) (data sha c : List Nat),
      lookupFS fs sha = some c → writeObjectWithSha zl ok fs data sha = fs) ∧
    (∀ (zl : ZlibModel) (fs : FS) (data : List Nat),
      lookupFS (writeObject zl true fs data).2 (computeSha1 data) =
        some (zl.deflate data)) := by
  constructor
  · intro zl ok fs data sha c h
    simp [writeObjectWithSha, h]
  · intro zl fs data
    simp only [writeObject]
    exact lookupFS_setFS fs (computeSha1 data) (zl.deflate data)

/-- Claim C4, witness: The no-op branch at a one-file store and the rewrite
result at the empty store. -/
theorem C4_witness :
    writeObjectWithSha idZlib true [([49], [5])] [9] [49] = [([49], [5])] ∧
    lookupFS (writeObject idZlib true [] [9]).2 (computeSha1 [9]) = some [9] :=
  ⟨C4_write_behavior.1 idZlib true [([49], [5])] [9] [49] [5] (by decide),
   C4_write_behavior.2 idZlib [] [9]⟩

/-! ## Claim C6: blob round-trip through `hash-object` and `cat-file` -/

/-- Claim C6, counterexample: The digest `hash-object -w` prints for the four
bytes `hi\n\0` is the SHA-1 of `blob 4\0hi\n\0`, which is
`f00a2af6cdfe5a97ff6e2afb34c1dcb18b084c10` — not the
`ce013625030ba8dba906f756967f9e9ca394464a` the claim states (that value is
the digest of `blob 6\0hello\n`). -/
theorem C6_counterexample :
    computeSha1 (frameObj blobKind [104, 105, 10, 0]) =
      strBytes "f00a2af6cdfe5a97ff6e2afb34c1dcb18b084c10" ∧
    strBytes "f00a2af6cdfe5a97ff6e2afb34c1dcb18b084c10" ≠
      strBytes "ce013625030ba8dba906f756967f9e9ca394464a" := by
  refine ⟨by decide, by decide⟩

/-- Claim C6, amended: For every byte sequence `B`, `hash-object -w` on a
file containing `B` prints the 40-hex SHA-1 of `blob |B|\0B` (plus a
newline) and stores the deflated framing; `cat-file -p` on that digest
writes exactly `B` to stdout with no trailing newline. For the four bytes
`hi\n\0` the printed digest is `f00a2af6cdfe5a97ff6e2afb34c1dcb18b084c10`. -/
theorem C6_blob_roundtrip :
    (∀ (zl : ZlibModel) (fs : FS) (B : List Nat),
      (hashObjectCmd zl true fs B).1 = computeSha1 (frameObj blobKind B) ++ [10] ∧
      catFileCmd zl (hashObjectCmd zl true fs B).2.2
        (computeSha1 (frameObj blobKind B)) = some B) ∧
    computeSha1 (frameObj blobKind [104, 105, 10, 0]) =
      strBytes "f00a2af6cdfe5a97ff6e2afb34c1dcb18b084c10" := by
  constructor
  · intro zl fs B
    constructor
    · simp [hashObjectCmd]
    · simp only [hashObjectCmd, catFileCmd, if_true]
      rw [lookupFS_setFS fs (computeSha1 (frameObj blobKind B))
        (zl.deflate (frameObj blobKind B))]
      show (match splitAtByte 0 (zl.inflate (zl.deflate (frameObj blobKind B))) with
        | none => none
        | some (_, content) => some content) = some B
      rw [zl.round (frameObj blobKind B), splitAtByte_frameObj blobKind B (by decide)]
  · decide

/-! ## Claim C3: unresolved deltas are silently dropped -/

/-- Claim C3, counterexample: A syntactically valid pack declaring one object,
a ref-delta whose 20-byte base digest (`0xab` twenty times) names an object
that is never produced in the pack: the resolution loop reaches its
no-progress fixpoint with the delta unresolved, and `parsePackfile`
*succeeds*, returning an empty object map that silently omits the record —
no `UnresolvedDelta` (or any other) error. -/
theorem C3_counterexample :
    (parsePackRecords (fun _ => ([0, 0], 4))
      (strBytes "PACK" ++ [0, 0, 0, 2] ++ [0, 0, 0, 1] ++ [0x72] ++
        List.replicate 20 0xab)).map (List.map PackRec.type) = some [7] ∧
    parsePackfileModel (fun _ => ([0, 0], 4))
      (strBytes "PACK" ++ [0, 0, 0, 2] ++ [0, 0, 0, 1] ++ [0x72] ++
        List.replicate 20 0xab) = some [] := by
  refine ⟨by decide, by decide⟩

/-- Claim C3, amended: When the fixpoint is reached with a delta record still
unresolved, the publish-and-resolve phase of `parsePackfile` returns
normally with the map of resolved objects, silently omitting the unresolved
record: for any ref-delta record whose base digest is not among the pack's
objects (here: a pack consisting of that single record), the result is
`some` of the empty map, not an error. -/
theorem C3_unresolved_silent (r : PackRec) (h7 : r.type = 7) (hsha : r.sha = []) :
    resolveAll [r] = some [] := by
  obtain ⟨ty, data, off, bsha, boff, sha⟩ := r
  have h7' : ty = 7 := h7
  have hsha' : sha = [] := hsha
  subst h7'
  subst hsha'
  cases bsha with
  | nil => rfl
  | cons x xs => rfl

/-- Claim C3, witness: The amended theorem at a concrete ref-delta record. -/
theorem C3_witness : resolveAll [⟨7, [0, 0], 12, [97, 98], 0, []⟩] = some [] :=
  C3_unresolved_silent ⟨7, [0, 0], 12, [97, 98], 0, []⟩ rfl rfl

/-! ## Claim C7: pack header version and kind code 5 -/

/-- Claim C7, counterexample: A pack whose big-endian version field is 3 and
whose single record has the reserved kind code 5: `parsePackfile` accepts
both, publishing the record as a base object whose framing label is
`"unknown"` — nothing is rejected. -/
theorem C7_counterexample :
    parsePackfileModel (fun _ => ([0, 0], 4))
      (strBytes "PACK" ++ [0, 0, 0, 3] ++ [0, 0, 0, 1] ++ [0x50]) =
      some [(computeSha1 (frameObj (typeToString 5) [0, 0]),
             ⟨5, [0, 0], 12, [], 0, computeSha1 (frameObj (typeToString 5) [0, 0])⟩)] := by
  decide

theorem sizeContF_stop (p : List Nat) (fuel pos size shift b : Nat)
    (h : b &&& 0x80 = 0) :
    sizeContF p (fuel + 1) pos size shift b = (size, pos) := by
  simp [sizeContF, h]

/-- Claim C7, amended: The pack parser validates only the `"PACK"` magic: the
four version bytes are skipped without inspection (below they are arbitrary
`a b c d`), and a record with the reserved kind code 5 is parsed like any
base object — its inflated payload is taken from the zlib stream at offset
13 and no error is raised. -/
theorem C7_pack_accepts (inf : Nat → List Nat × Nat) (a b c d : Nat) :
    parsePackRecords inf ([80, 65, 67, 75] ++ [a, b, c, d] ++ [0, 0, 0, 1, 0x50]) =
      some [⟨5, (inf 13).1, 12, [], 0, []⟩] := by
  have htake : ([80, 65, 67, 75] ++ [a, b, c, d] ++ [0, 0, 0, 1, 0x50]).take 4 =
      strBytes "PACK" := rfl
  have hlen : ([80, 65, 67, 75] ++ [a, b, c, d] ++ [0, 0, 0, 1, 0x50]).length = 13 := rfl
  have hg8 : ([80, 65, 67, 75] ++ [a, b, c, d] ++ [0, 0, 0, 1, 0x50]).getD 8 0 = 0 := rfl
  have hg9 : ([80, 65, 67, 75] ++ [a, b, c, d] ++ [0, 0, 0, 1, 0x50]).getD 9 0 = 0 := rfl
  have hg10 : ([80, 65, 67, 75] ++ [a, b, c, d] ++ [0, 0, 0, 1, 0x50]).getD 10 0 = 0 := rfl
  have hg11 : ([80, 65, 67, 75] ++ [a, b, c, d] ++ [0, 0, 0, 1, 0x50]).getD 11 0 = 1 := rfl
  have hg12 : ([80, 65, 67, 75] ++ [a, b, c, d] ++ [0, 0, 0, 1, 0x50]).getD 12 0 = 0x50 := rfl
  rcases hinf : inf 13 with ⟨data, consumed⟩
  unfold parsePackRecords
  rw [if_neg (fun hc => hc htake)]
  simp only [hg8, hg9, hg10, hg11]
  have hn : (0 : Nat) <<< 24 ||| (0 : Nat) <<< 16 ||| (0 : Nat) <<< 8 ||| (1 : Nat) = 1 := by
    decide
  rw [hn]
  simp only [parseRecordsF, hg12, hlen]
  have e1 : (80 : Nat) &&& 128 = 0 := by decide
  have e2 : (80 : Nat) >>> 4 &&& 7 = 5 := by decide
  have e3 : (80 : Nat) &&& 15 = 0 := by decide
  have e4 : (5 : Nat) &&& 7 = 5 := by decide
  simp [sizeContF, hinf, e1, e2, e3, e4]

/-! ## Claim C8: failure policy of the commands -/

/-- Claim C8, code bug: In a run where every open of a loose-object file for
writing fails (`openOk = false`), `write-tree` on a directory holding the
file `"a"` still prints a 40-hex digest line (41 bytes with the newline)
and exits 0, writing nothing to the store — `writeObject` checks
`is_open()` and silently does nothing on failure, so neither `write-tree`
nor `commit-tree` aborts. `hash-object`, which checks its own open, does
abort with exit 1 and prints no digest, as the claim demands of all three. -/
theorem C8_failing_eval :
    ((writeTreeCmd idZlib false 2 [] [([97], FsNode.file [120])]).1).length = 41 ∧
    (writeTreeCmd idZlib false 2 [] [([97], FsNode.file [120])]).2.1 = 0 ∧
    (writeTreeCmd idZlib false 2 [] [([97], FsNode.file [120])]).2.2 = [] ∧
    ((commitTreeCmd idZlib false [] (List.replicate 40 97) (List.replicate 40 98)
      [104, 105]).1).length = 41 ∧
    (commitTreeCmd idZlib false [] (List.replicate 40 97) (List.replicate 40 98)
      [104, 105]).2.1 = 0 ∧
    (hashObjectCmd idZlib false [] [120]).1 = [] ∧
    (hashObjectCmd idZlib false [] [120]).2.1 = 1 := by
  refine ⟨by decide, by decide, by decide, by decide, by decide, by decide, by decide⟩

/-! ## Claim C9: reserved packet-line lengths -/

/-- Claim C9, counterexample: A buffer holding a valid `"Hello"` packet, then
a packet whose four length bytes decode to the reserved value 2, then
another valid packet: `parsePktLines` neither raises an error nor skips
just the reserved packet — it silently stops, returning the lines collected
so far and discarding everything from the reserved packet on. -/
theorem C9_counterexample :
    parsePktLines (strBytes "000aHello
" ++ strBytes "0002" ++ strBytes "000aWorld
") =
      some [strBytes "Hello"] := by decide

/-- Claim C9, amended: A packet length decoding to a reserved value 1–3 ends
parsing at that packet: the parser returns the lines collected before it
(no error), and any bytes after the reserved packet are silently discarded. -/
theorem C9_reserved_truncates (d : Nat) (h1 : 49 ≤ d) (h2 : d ≤ 51) :
    parsePktLines (strBytes "000aHello
" ++ [48, 48, 48, d]) = some [strBytes "Hello"] ∧
    parsePktLines (strBytes "000aHello
" ++ [48, 48, 48, d] ++ strBytes "0009XYZAB") =
      some [strBytes "Hello"] := by
  interval_cases d
  · exact ⟨by decide, by decide⟩
  · exact ⟨by decide, by decide⟩
  · exact ⟨by decide, by decide⟩

/-- Claim C9, witness: The theorem at the reserved length `0002`. -/
theorem C9_witness :
    parsePktLines (strBytes "000aHello
" ++ [48, 48, 48, 50]) = some [strBytes "Hello"] :=
  (C9_reserved_truncates 50 (by decide) (by decide)).1

end GitSpec
